import Mathlib

/-!
Verification of the Process Query & Ordering Engine of the task-manager
repository (src/process_list.rs), against its natural-language specification.

The Rust code is shallowly embedded: records and the engine state become Lean
structures, filtering and sorting become pure Lean functions, and every Rust
panic site (an `unwrap` on regex compilation or on user lookup) is made
explicit by returning `Option`, `none` standing for the panic.  The label
parser lives in the module `parse_labels`, whose source file is not part of
the provided sources; it is modelled from the specification's grammar (see
`parse_input` below).
-/

/-- A process record, as read from the `sysinfo` collaborator:
`pid()`, `name()` and `user_id()` (the latter is `Option` since the owning
user id may be absent). -/
structure Process where
  pid : Nat
  name : String
  user_id : Option Nat
deriving DecidableEq

/-- The system snapshot: the process map (`System::processes`, a sequence of
key/record pairs in iteration order) and the user table consulted by
`get_user_by_id`. -/
structure System where
  processes : List (Nat × Process)
  users : List (Nat × String)
deriving DecidableEq

/-- `System::get_user_by_id`, returning the user's name when the id is known. -/
def System.get_user_by_id (sys : System) (uid : Nat) : Option String :=
  (sys.users.find? (fun u => u.1 == uid)).map (fun u => u.2)

/-- `system.get_user_by_id(process.user_id().unwrap()).unwrap().name()`:
`none` when either `unwrap` would panic (unresolvable owner). -/
def owner_name (sys : System) (p : Process) : Option String :=
  p.user_id.bind (fun uid => sys.get_user_by_id uid)

/-- Sort column (`Columns` in process_list.rs). -/
inductive Columns where
  | Pid
  | Owner
  | Name
deriving DecidableEq

/-- Sort direction (`Order` in process_list.rs). -/
inductive Order where
  | Asc
  | Desc
deriving DecidableEq

/-- `impl Not for Order`. -/
def Order.not : Order → Order
  | Order.Asc => Order.Desc
  | Order.Desc => Order.Asc

/-- The engine state `ProcessListState` (the `first` field only controls
initial UI focus and plays no role in filtering or sorting). -/
structure ProcessListState where
  search : String
  regex : Bool
  label_search : Bool
  first : Bool
  sort : Columns
  order : Order
  case_sensitive : Bool

/-- The external regex engine (`regex` crate): `Regex::new` either fails or
yields a matcher on strings.  The engine itself is outside the repository, so
it is kept abstract as a parameter of the development. -/
structure RegexModel where
  compile : String → Option (String → Bool)

/-- The closure `sensitiveness` of `filtered_processes`/`sorted_processes`:
identity when case sensitive, lower-casing otherwise. -/
def sensitiveness (st : ProcessListState) (s : String) : String :=
  if st.case_sensitive then s else s.toLower

/-- Does `needle` occur at the start of `hay`?  (Helper for modelling Rust's
`str::contains`.) -/
def listHasPrefix : List Char → List Char → Bool
  | _, [] => true
  | [], _ :: _ => false
  | a :: as, b :: bs => a == b && listHasPrefix as bs

/-- Does `needle` occur anywhere in `hay`? -/
def listHasSub (hay needle : List Char) : Bool :=
  if listHasPrefix hay needle then true
  else
    match hay with
    | [] => false
    | _ :: as => listHasSub as needle

/-- Rust's `str::contains(needle)` on `hay`. -/
def strContains (hay needle : String) : Bool :=
  listHasSub hay.toList needle.toList

/-- The label clauses produced by the `parse_labels` module
(`Labels::Pid`, `Labels::Owner`, `Labels::Name`). -/
inductive Labels where
  | Pid : Nat → Labels
  | Owner : String → Labels
  | Name : String → Labels
deriving DecidableEq

/-- Digits of a non-negative integer, or `none` when the characters are not a
non-empty run of decimal digits. -/
def digitsToNat (cs : List Char) : Option Nat :=
  if cs.isEmpty then none
  else if cs.all Char.isDigit then
    some (cs.foldl (fun n c => n * 10 + (c.toNat - 48)) 0)
  else none

/-- Modelled from the spec: the body of a quoted string value, after the
opening quote has been consumed.  `'\'` escapes the following character;
reaching the end of input before the closing quote is the unterminated-quote
parse failure.  Returns the string contents and the unconsumed rest. -/
def parseQuoted : List Char → Option (List Char × List Char)
  | [] => none
  | '"' :: rest => some ([], rest)
  | '\\' :: c :: rest =>
    (parseQuoted rest).map (fun pr => (c :: pr.1, pr.2))
  | c :: rest =>
    (parseQuoted rest).map (fun pr => (c :: pr.1, pr.2))

/-- Modelled from the spec: a clause value, either a quoted string or a bare
token of one or more non-whitespace characters. -/
def parseValue (cs : List Char) : Option (List Char × List Char) :=
  match cs with
  | '"' :: rest => parseQuoted rest
  | _ =>
    let tok := cs.takeWhile (fun c => !c.isWhitespace)
    let rest := cs.dropWhile (fun c => !c.isWhitespace)
    if tok.isEmpty then none else some (tok, rest)

/-- Modelled from the spec: one clause `label ':' value` with label one of
`pid`, `owner`, `name`; a `pid` value must be a non-negative integer. -/
def parseClause (cs : List Char) : Option (Labels × List Char) :=
  match cs with
  | 'p' :: 'i' :: 'd' :: ':' :: rest =>
    (parseValue rest).bind (fun vr =>
      match digitsToNat vr.1 with
      | some n => some (Labels.Pid n, vr.2)
      | none => none)
  | 'o' :: 'w' :: 'n' :: 'e' :: 'r' :: ':' :: rest =>
    (parseValue rest).map (fun vr => (Labels.Owner (String.mk vr.1), vr.2))
  | 'n' :: 'a' :: 'm' :: 'e' :: ':' :: rest =>
    (parseValue rest).map (fun vr => (Labels.Name (String.mk vr.1), vr.2))
  | _ => none

/-- Modelled from the spec: further clauses, each preceded by at least one
whitespace character; parsing stops (without consuming) at the first position
where no whitespace-then-clause can be read, leaving the rest unconsumed.
The fuel argument only bounds the recursion; callers pass the input length,
which each step strictly exceeds in consumed characters. -/
def parseRest : Nat → List Char → List Labels × List Char
  | 0, cs => ([], cs)
  | Nat.succ fuel, cs =>
    let ws := cs.takeWhile Char.isWhitespace
    let cs' := cs.dropWhile Char.isWhitespace
    if ws.isEmpty then ([], cs)
    else
      match parseClause cs' with
      | none => ([], cs)
      | some lr =>
        let more := parseRest fuel lr.2
        (lr.1 :: more.1, more.2)

/-- Modelled from the spec: `parse_labels::parse_input`, the entry point of
the missing `parse_labels` module, in nom style: it returns the unconsumed
rest of the input together with the clauses read from the front (an empty
input yields no clauses and empty rest).  A failure on the very first clause
consumes nothing, so malformed input reappears whole as the rest; the caller
in `filtered_processes` treats any non-empty rest as a parse failure. -/
def parse_input (s : String) : Option (String × List Labels) :=
  let cs := s.toList
  match parseClause cs with
  | none => some (String.mk cs, [])
  | some lr =>
    let more := parseRest lr.2.length lr.2
    some (String.mk more.2, lr.1 :: more.1)

/-- Rust's `Iterator::filter` over a closure that may panic: `none` as the
value of `f` on a traversed element models the panic aborting the whole
traversal. -/
def filterUnwrap (f : α → Option Bool) : List α → Option (List α)
  | [] => some []
  | x :: xs =>
    match f x with
    | none => none
    | some b =>
      match filterUnwrap f xs with
      | none => none
      | some r => some (if b then x :: r else r)

/-- One arm of the `for label in labels.1` loop of `filtered_processes`:
apply a single clause to the surviving processes.  `none` models a panic:
the `unwrap` on `Regex::new` for a `name` clause in regex mode, or the
`unwrap`s on the user lookup for an `owner` clause. -/
def applyClause (rm : RegexModel) (st : ProcessListState) (sys : System)
    (label : Labels) (ps : List (Nat × Process)) : Option (List (Nat × Process)) :=
  match label with
  | Labels.Pid pid =>
    some (ps.filter (fun p => p.2.pid == pid))
  | Labels.Owner name =>
    filterUnwrap (fun p =>
      (owner_name sys p.2).map (fun ow =>
        strContains (sensitiveness st ow) (sensitiveness st name))) ps
  | Labels.Name name =>
    if st.regex then
      match rm.compile name with
      | none => none
      | some re => some (ps.filter (fun p => re p.2.name))
    else
      some (ps.filter (fun p =>
        strContains (sensitiveness st p.2.name) (sensitiveness st name)))

/-- The whole clause loop: clauses are applied left to right, each narrowing
the surviving process list. -/
def applyLabels (rm : RegexModel) (st : ProcessListState) (sys : System) :
    List Labels → List (Nat × Process) → Option (List (Nat × Process))
  | [], ps => some ps
  | l :: ls, ps => (applyClause rm st sys l ps).bind (applyLabels rm st sys ls)

/-- `ProcessListState::filtered_processes`.  `none` models a panic of the
Rust code (an `unwrap` firing); `some l` is the returned vector. -/
def filtered_processes (rm : RegexModel) (st : ProcessListState) (sys : System) :
    Option (List (Nat × Process)) :=
  if st.regex && !st.label_search then
    match rm.compile st.search with
    | none => none
    | some re => some (sys.processes.filter (fun p => re p.2.name))
  else if st.label_search then
    match parse_input st.search with
    | none => some []
    | some rl =>
      if rl.1 ≠ "" then some []
      else applyLabels rm st sys rl.2 sys.processes
  else
    some (sys.processes.filter (fun p =>
      strContains (sensitiveness st p.2.name) (sensitiveness st st.search)))

/-- Sort key for the `Columns::Pid` arm of `sorted_processes`: the map key of
the entry (`|(pid, _)| *pid`). -/
def pidKey (p : Nat × Process) : Nat := p.1

/-- Sort key for the `Columns::Owner` arm: the case-normalized owner name.
The `getD ""` default is never reached when sorting succeeds, since
`sortStep` returns `none` (panic) as soon as some owner is unresolvable. -/
def ownerKey (st : ProcessListState) (sys : System) (p : Nat × Process) : String :=
  sensitiveness st ((owner_name sys p.2).getD "")

/-- Sort key for the `Columns::Name` arm: the case-normalized display name. -/
def nameKey (st : ProcessListState) (p : Nat × Process) : String :=
  sensitiveness st p.2.name

/-- Ascending comparison by a key (`sort_by_key(key)`). -/
def leAsc [LinearOrder γ] (k : β → γ) (a b : β) : Bool :=
  decide (k a ≤ k b)

/-- Descending comparison by a key (`sort_by_key(Reverse(key))`). -/
def leDesc [LinearOrder γ] (k : β → γ) (a b : β) : Bool :=
  decide (k b ≤ k a)

/-- Are all owners of the given processes resolvable?  The owner sort key
closure unwraps the user lookup for every element, so an unresolvable owner
anywhere in the list panics the sort. -/
def allResolvable (sys : System) (ps : List (Nat × Process)) : Bool :=
  ps.all (fun p => (owner_name sys p.2).isSome)

/-- The sorting stage of `ProcessListState::sorted_processes`: Rust's stable
`sort_by_key` is `List.mergeSort` by the key comparison; the owner sort
panics (`none`) when some record's owner is unresolvable, since the key
closure unwraps the user lookup. -/
def sortStep (st : ProcessListState) (sys : System) (ps : List (Nat × Process)) :
    Option (List (Nat × Process)) :=
  match st.sort with
  | Columns.Pid =>
    some (match st.order with
      | Order.Asc => ps.mergeSort (leAsc pidKey)
      | Order.Desc => ps.mergeSort (leDesc pidKey))
  | Columns.Owner =>
    if allResolvable sys ps then
      some (match st.order with
        | Order.Asc => ps.mergeSort (leAsc (ownerKey st sys))
        | Order.Desc => ps.mergeSort (leDesc (ownerKey st sys)))
    else none
  | Columns.Name =>
    some (match st.order with
      | Order.Asc => ps.mergeSort (leAsc (nameKey st))
      | Order.Desc => ps.mergeSort (leDesc (nameKey st)))

/-- `ProcessListState::sorted_processes`: filter, then sort. -/
def sorted_processes (rm : RegexModel) (st : ProcessListState) (sys : System) :
    Option (List (Nat × Process)) :=
  (filtered_processes rm st sys).bind (sortStep st sys)

/-- The header-click handler of `table`: clicking column `c` flips the order
when `c` is already the sort column, otherwise resets to ascending; the sort
column becomes `c` either way. -/
def clickColumn (st : ProcessListState) (c : Columns) : ProcessListState :=
  if st.sort = c then
    { st with order := st.order.not, sort := c }
  else
    { st with order := Order.Asc, sort := c }

/-- A pure per-record reading of one clause, used to state the intersection
property: it agrees with `applyClause` whenever no unwrap can fire. -/
def clauseMatches (rm : RegexModel) (st : ProcessListState) (sys : System)
    (label : Labels) (p : Nat × Process) : Bool :=
  match label with
  | Labels.Pid pid => p.2.pid == pid
  | Labels.Owner name =>
    strContains (sensitiveness st ((owner_name sys p.2).getD ""))
      (sensitiveness st name)
  | Labels.Name name =>
    if st.regex then
      match rm.compile name with
      | none => false
      | some re => re p.2.name
    else
      strContains (sensitiveness st p.2.name) (sensitiveness st name)

/-- A regex model whose compilation always fails (used to instantiate
witnesses where the regex engine is irrelevant or must fail). -/
def rmNone : RegexModel := ⟨fun _ => none⟩

/-- A regex model that accepts every pattern and matches it as a literal
substring (used to instantiate witnesses needing a successful compile). -/
def rmSub : RegexModel := ⟨fun pat => some (fun s => strContains s pat)⟩

/-- Equality of the active sort keys of two records, as selected by the
current sort column (used to state sort stability). -/
def sortKeyEq (st : ProcessListState) (sys : System) (a b : Nat × Process) : Prop :=
  match st.sort with
  | Columns.Pid => pidKey a = pidKey b
  | Columns.Owner => ownerKey st sys a = ownerKey st sys b
  | Columns.Name => nameKey st a = nameKey st b

/-- Default engine state (mirrors `ProcessListState::default`). -/
def stPlain : ProcessListState :=
  ⟨"", false, false, true, Columns.Pid, Order.Asc, false⟩

/-- The snapshot of the specification's scenario section. -/
def sysEx : System :=
  ⟨[(1001, ⟨1001, "init", some 0⟩), (2002, ⟨2002, "firefox", some 1⟩),
    (2200, ⟨2200, "Find", some 1⟩)],
   [(0, "root"), (1, "alice")]⟩

/-- A snapshot containing a record whose owner cannot be resolved
(`user_id` absent) next to an ordinary record. -/
def sysU : System :=
  ⟨[(1, ⟨1, "a", none⟩), (2, ⟨2, "b", some 0⟩)], [(0, "root")]⟩

/-- A snapshot with two distinct records sharing the same display name and
owner (for exercising sort stability on equal keys). -/
def sysDup : System :=
  ⟨[(1, ⟨1, "x", some 0⟩), (2, ⟨2, "x", some 0⟩)], [(0, "root")]⟩

/-- State sorting by owner (otherwise default). -/
def stOwner : ProcessListState := { stPlain with sort := Columns.Owner }

/-- Case-sensitive default state (pid sort, ascending). -/
def stCS : ProcessListState := { stPlain with case_sensitive := true }

/-- A snapshot whose two records share the same map key (equal pid sort
keys) but are distinct records. -/
def sysPidDup : System :=
  ⟨[(5, ⟨1, "a", some 0⟩), (5, ⟨2, "b", some 0⟩)], [(0, "root")]⟩

/-! ## Helper lemmas -/

theorem leAsc_trans [LinearOrder γ] (k : β → γ) :
    ∀ a b c : β, leAsc k a b → leAsc k b c → leAsc k a c := by
  intro a b c h1 h2
  simp only [leAsc, decide_eq_true_eq] at h1 h2 ⊢
  exact le_trans h1 h2

theorem leAsc_total [LinearOrder γ] (k : β → γ) :
    ∀ a b : β, leAsc k a b || leAsc k b a := by
  intro a b
  simp only [leAsc, Bool.or_eq_true, decide_eq_true_eq]
  exact le_total (k a) (k b)

theorem leDesc_trans [LinearOrder γ] (k : β → γ) :
    ∀ a b c : β, leDesc k a b → leDesc k b c → leDesc k a c := by
  intro a b c h1 h2
  simp only [leDesc, decide_eq_true_eq] at h1 h2 ⊢
  exact le_trans h2 h1

theorem leDesc_total [LinearOrder γ] (k : β → γ) :
    ∀ a b : β, leDesc k a b || leDesc k b a := by
  intro a b
  simp only [leDesc, Bool.or_eq_true, decide_eq_true_eq]
  exact le_total (k b) (k a)

theorem perm_all_eq {l₁ l₂ : List β} (h : l₁.Perm l₂) (f : β → Bool) :
    l₁.all f = l₂.all f := by
  induction h with
  | nil => rfl
  | cons x _ ih => simp [List.all_cons, ih]
  | swap x y l =>
    simp only [List.all_cons, ← Bool.and_assoc]
    rw [Bool.and_comm (f y) (f x)]
  | trans _ _ ih1 ih2 => rw [ih1, ih2]

theorem filterUnwrap_eq_filter (f : α → Option Bool) (g : α → Bool) :
    ∀ l : List α, (∀ x ∈ l, f x = some (g x)) →
      filterUnwrap f l = some (l.filter g) := by
  intro l
  induction l with
  | nil => intro _; rfl
  | cons x xs ih =>
    intro h
    have hx : f x = some (g x) := h x (List.mem_cons_self x xs)
    have hxs := ih (fun y hy => h y (List.mem_cons_of_mem x hy))
    simp only [filterUnwrap, hx, hxs, List.filter_cons]

theorem filterUnwrap_sublist (f : α → Option Bool) :
    ∀ l r : List α, filterUnwrap f l = some r → r.Sublist l := by
  intro l
  induction l with
  | nil =>
    intro r h
    simp only [filterUnwrap, Option.some.injEq] at h
    simp [← h]
  | cons x xs ih =>
    intro r h
    simp only [filterUnwrap] at h
    cases hfx : f x with
    | none => rw [hfx] at h; exact absurd h (by simp)
    | some b =>
      rw [hfx] at h
      cases hrec : filterUnwrap f xs with
      | none => rw [hrec] at h; exact absurd h (by simp)
      | some r0 =>
        rw [hrec] at h
        simp only [Option.some.injEq] at h
        subst h
        have hs := ih r0 hrec
        cases b with
        | true => simpa using hs.cons₂ x
        | false => simpa using hs.cons x

theorem filterUnwrap_none (f : α → Option Bool) :
    ∀ l : List α, ∀ x ∈ l, f x = none → filterUnwrap f l = none := by
  intro l
  induction l with
  | nil => intro x hx; exact absurd hx (List.not_mem_nil x)
  | cons y ys ih =>
    intro x hx hfx
    rcases List.mem_cons.mp hx with h | h
    · subst h; simp [filterUnwrap, hfx]
    · simp only [filterUnwrap]
      cases hfy : f y with
      | none => rfl
      | some b => rw [ih x h hfx]

theorem applyClause_sublist (rm : RegexModel) (st : ProcessListState) (sys : System)
    (c : Labels) (ps l : List (Nat × Process)) :
    applyClause rm st sys c ps = some l → l.Sublist ps := by
  intro h
  cases c with
  | Pid n =>
    simp only [applyClause, Option.some.injEq] at h
    rw [← h]; exact List.filter_sublist ps
  | Owner v => exact filterUnwrap_sublist _ ps l h
  | Name v =>
    simp only [applyClause] at h
    cases hre : st.regex with
    | false =>
      rw [hre] at h
      simp only [Bool.false_eq_true, if_false, Option.some.injEq] at h
      rw [← h]; exact List.filter_sublist ps
    | true =>
      rw [hre] at h
      simp only [if_true] at h
      cases hc : rm.compile v with
      | none => rw [hc] at h; exact absurd h (by simp)
      | some re =>
        rw [hc] at h
        simp only [Option.some.injEq] at h
        rw [← h]; exact List.filter_sublist ps

theorem applyLabels_sublist (rm : RegexModel) (st : ProcessListState) (sys : System) :
    ∀ (ls : List Labels) (ps l : List (Nat × Process)),
      applyLabels rm st sys ls ps = some l → l.Sublist ps := by
  intro ls
  induction ls with
  | nil =>
    intro ps l h
    simp only [applyLabels, Option.some.injEq] at h
    rw [← h]
  | cons c cs ih =>
    intro ps l h
    simp only [applyLabels] at h
    cases hc : applyClause rm st sys c ps with
    | none => rw [hc] at h; exact absurd h (by simp)
    | some mid =>
      rw [hc] at h
      simp only [Option.some_bind] at h
      exact (ih mid l h).trans (applyClause_sublist rm st sys c ps mid hc)

/-! ## Claims -/

/-- C8: clicking the currently active sort column flips the direction and
keeps the column; clicking any other column switches to it with ascending
direction.  `Order.not` swaps `Asc` and `Desc`. -/
theorem click_toggle_rule (st : ProcessListState) (c : Columns) :
    (st.sort = c → clickColumn st c = { st with order := st.order.not }) ∧
    (st.sort ≠ c → clickColumn st c = { st with sort := c, order := Order.Asc }) ∧
    Order.Asc.not = Order.Desc ∧ Order.Desc.not = Order.Asc := by
  refine ⟨?_, ?_, rfl, rfl⟩
  · intro h
    simp only [clickColumn, if_pos h]
    rw [← h]
  · intro h
    simp only [clickColumn, if_neg h]

/-- Witness for `click_toggle_rule` at concrete states: clicking the active
pid column flips the direction; clicking the owner column resets to
ascending and switches. -/
theorem click_toggle_rule_witness :
    clickColumn stPlain Columns.Pid = { stPlain with order := stPlain.order.not } ∧
    clickColumn stPlain Columns.Owner
      = { stPlain with sort := Columns.Owner, order := Order.Asc } :=
  ⟨(click_toggle_rule stPlain Columns.Pid).1 rfl,
   (click_toggle_rule stPlain Columns.Owner).2.1 (by decide)⟩

theorem mergeSort_idem (le : β → β → Bool)
    (htrans : ∀ a b c, le a b → le b c → le a c)
    (htotal : ∀ a b, le a b || le b a) (l : List β) :
    (l.mergeSort le).mergeSort le = l.mergeSort le :=
  List.mergeSort_of_sorted (List.sorted_mergeSort htrans htotal l)

theorem sortStep_perm (st : ProcessListState) (sys : System)
    (ps m : List (Nat × Process)) (h : sortStep st sys ps = some m) :
    m.Perm ps := by
  unfold sortStep at h
  cases hc : st.sort <;> rw [hc] at h
  case Pid =>
    cases ho : st.order <;> rw [ho] at h <;>
      simp only [Option.some.injEq] at h <;>
      exact h ▸ List.mergeSort_perm ps _
  case Owner =>
    cases hres : allResolvable sys ps with
    | false => rw [hres] at h; simp at h
    | true =>
      rw [hres] at h
      simp only [if_true] at h
      cases ho : st.order <;> rw [ho] at h <;>
        simp only [Option.some.injEq] at h <;>
        exact h ▸ List.mergeSort_perm ps _
  case Name =>
    cases ho : st.order <;> rw [ho] at h <;>
      simp only [Option.some.injEq] at h <;>
      exact h ▸ List.mergeSort_perm ps _

/-- C9: sorting is idempotent — applying the sort stage to its own output
(for the same key and direction) returns that output unchanged. -/
theorem sort_idempotent (st : ProcessListState) (sys : System)
    (ps qs : List (Nat × Process)) (h : sortStep st sys ps = some qs) :
    sortStep st sys qs = some qs := by
  unfold sortStep at h ⊢
  cases hc : st.sort <;> rw [hc] at h
  case Pid =>
    cases ho : st.order <;> rw [ho] at h <;>
      simp only [Option.some.injEq] at h <;> rw [← h]
    · exact congrArg some (mergeSort_idem _ (leAsc_trans pidKey) (leAsc_total pidKey) ps)
    · exact congrArg some (mergeSort_idem _ (leDesc_trans pidKey) (leDesc_total pidKey) ps)
  case Owner =>
    cases hres : allResolvable sys ps with
    | false => rw [hres] at h; simp at h
    | true =>
      rw [hres] at h
      simp only [if_true] at h
      cases ho : st.order <;> rw [ho] at h <;>
        simp only [Option.some.injEq] at h <;> rw [← h] <;>
        rw [show allResolvable sys (ps.mergeSort _) = true from
          (perm_all_eq (List.mergeSort_perm ps _) _).trans hres] <;>
        simp only [if_true]
      · exact congrArg some
          (mergeSort_idem _ (leAsc_trans (ownerKey st sys)) (leAsc_total (ownerKey st sys)) ps)
      · exact congrArg some
          (mergeSort_idem _ (leDesc_trans (ownerKey st sys)) (leDesc_total (ownerKey st sys)) ps)
  case Name =>
    cases ho : st.order <;> rw [ho] at h <;>
      simp only [Option.some.injEq] at h <;> rw [← h]
    · exact congrArg some
        (mergeSort_idem _ (leAsc_trans (nameKey st)) (leAsc_total (nameKey st)) ps)
    · exact congrArg some
        (mergeSort_idem _ (leDesc_trans (nameKey st)) (leDesc_total (nameKey st)) ps)

theorem mergeSort_pair (le : β → β → Bool) (a b : β) :
    [a, b].mergeSort le = if le a b then [a, b] else [b, a] := by
  rw [List.mergeSort]
  simp [List.merge]

/-- Witness for `sort_idempotent`: re-sorting an already pid-sorted pair
leaves it unchanged. -/
theorem sort_idempotent_witness :
    sortStep stPlain sysDup [(1, ⟨1, "x", some 0⟩), (2, ⟨2, "x", some 0⟩)]
      = some [(1, ⟨1, "x", some 0⟩), (2, ⟨2, "x", some 0⟩)] :=
  sort_idempotent stPlain sysDup [(2, ⟨2, "x", some 0⟩), (1, ⟨1, "x", some 0⟩)] _
    (by simp [sortStep, stPlain, mergeSort_pair, leAsc, pidKey])

/-- C7: the sort is stable — for every sort column and direction, two records
with equal active sort keys keep, after sorting, the relative order they had
in the filter pipeline's output. -/
theorem sort_stable (rm : RegexModel) (st : ProcessListState) (sys : System)
    (l m : List (Nat × Process)) (a b : Nat × Process)
    (hf : filtered_processes rm st sys = some l)
    (hs : sorted_processes rm st sys = some m)
    (hab : [a, b].Sublist l) (hk : sortKeyEq st sys a b) :
    [a, b].Sublist m := by
  have hstep : sortStep st sys l = some m := by
    rw [sorted_processes, hf] at hs
    simpa using hs
  unfold sortStep at hstep
  unfold sortKeyEq at hk
  cases hc : st.sort <;> rw [hc] at hstep hk
  case Pid =>
    cases ho : st.order <;> rw [ho] at hstep <;>
      simp only [Option.some.injEq] at hstep <;> rw [← hstep]
    · exact List.pair_sublist_mergeSort (leAsc_trans pidKey) (leAsc_total pidKey)
        (by simp [leAsc, hk]) hab
    · exact List.pair_sublist_mergeSort (leDesc_trans pidKey) (leDesc_total pidKey)
        (by simp [leDesc, hk]) hab
  case Owner =>
    cases hres : allResolvable sys l with
    | false => rw [hres] at hstep; simp at hstep
    | true =>
      rw [hres] at hstep
      simp only [if_true] at hstep
      cases ho : st.order <;> rw [ho] at hstep <;>
        simp only [Option.some.injEq] at hstep <;> rw [← hstep]
      · exact List.pair_sublist_mergeSort (leAsc_trans (ownerKey st sys))
          (leAsc_total (ownerKey st sys)) (by simp [leAsc, hk]) hab
      · exact List.pair_sublist_mergeSort (leDesc_trans (ownerKey st sys))
          (leDesc_total (ownerKey st sys)) (by simp [leDesc, hk]) hab
  case Name =>
    cases ho : st.order <;> rw [ho] at hstep <;>
      simp only [Option.some.injEq] at hstep <;> rw [← hstep]
    · exact List.pair_sublist_mergeSort (leAsc_trans (nameKey st))
        (leAsc_total (nameKey st)) (by simp [leAsc, hk]) hab
    · exact List.pair_sublist_mergeSort (leDesc_trans (nameKey st))
        (leDesc_total (nameKey st)) (by simp [leDesc, hk]) hab

/-- Witness for `sort_stable`: two distinct records sharing the pid sort key
5 keep their snapshot order through the pid sort. -/
theorem sort_stable_witness :
    List.Sublist [(5, (⟨1, "a", some 0⟩ : Process)), (5, ⟨2, "b", some 0⟩)]
      [(5, (⟨1, "a", some 0⟩ : Process)), (5, ⟨2, "b", some 0⟩)] :=
  sort_stable rmNone stCS sysPidDup
    [(5, ⟨1, "a", some 0⟩), (5, ⟨2, "b", some 0⟩)]
    [(5, ⟨1, "a", some 0⟩), (5, ⟨2, "b", some 0⟩)]
    (5, ⟨1, "a", some 0⟩) (5, ⟨2, "b", some 0⟩)
    (by decide)
    (by
      rw [sorted_processes,
        show filtered_processes rmNone stCS sysPidDup
            = some [(5, ⟨1, "a", some 0⟩), (5, ⟨2, "b", some 0⟩)] from by decide,
        Option.some_bind]
      show some (([(5, (⟨1, "a", some 0⟩ : Process)), (5, ⟨2, "b", some 0⟩)]).mergeSort
          (leAsc pidKey)) = _
      rw [mergeSort_pair]
      decide)
    (List.Sublist.refl _) rfl

theorem filtered_sublist (rm : RegexModel) (st : ProcessListState) (sys : System)
    (l : List (Nat × Process)) (hf : filtered_processes rm st sys = some l) :
    l.Sublist sys.processes := by
  unfold filtered_processes at hf
  by_cases hlab : st.label_search = true
  · rw [hlab] at hf
    simp only [Bool.not_true, Bool.and_false, Bool.false_eq_true, if_false, if_true] at hf
    cases hp : parse_input st.search with
    | none =>
      rw [hp] at hf
      simp only [Option.some.injEq] at hf
      rw [← hf]
      exact List.nil_sublist _
    | some rl =>
      rw [hp] at hf
      have hf' : (if rl.1 ≠ "" then some []
          else applyLabels rm st sys rl.2 sys.processes) = some l := hf
      by_cases hr : rl.1 = ""
      · rw [if_neg (show ¬rl.1 ≠ "" from fun hne => hne hr)] at hf'
        exact applyLabels_sublist rm st sys rl.2 sys.processes l hf'
      · rw [if_pos hr] at hf'
        simp only [Option.some.injEq] at hf'
        rw [← hf']
        exact List.nil_sublist _
  · have hl' : st.label_search = false := by simpa using hlab
    rw [hl'] at hf
    simp only [Bool.not_false, Bool.and_true, Bool.false_eq_true, if_false] at hf
    cases hreg : st.regex with
    | true =>
      rw [hreg] at hf
      simp only [if_true] at hf
      cases hc : rm.compile st.search with
      | none => rw [hc] at hf; exact absurd hf (by simp)
      | some re =>
        rw [hc] at hf
        simp only [Option.some.injEq] at hf
        rw [← hf]
        exact List.filter_sublist _
    | false =>
      rw [hreg] at hf
      simp only [Bool.false_eq_true, if_false] at hf
      simp only [Option.some.injEq] at hf
      rw [← hf]
      exact List.filter_sublist _

/-- C10: the pipeline invents, duplicates and drops nothing beyond
filtering: a successful `filtered_processes` result is a sublist of the
snapshot (each record comes from the snapshot, in snapshot order, at most as
often as it occurs there), and a successful `sorted_processes` result is a
permutation of the filtered result (sorting only reorders). -/
theorem pipeline_preserves_records (rm : RegexModel) (st : ProcessListState)
    (sys : System) (l : List (Nat × Process))
    (hf : filtered_processes rm st sys = some l) :
    l.Sublist sys.processes ∧
    ∀ m, sorted_processes rm st sys = some m → m.Perm l := by
  refine ⟨filtered_sublist rm st sys l hf, ?_⟩
  intro m hm
  rw [sorted_processes, hf, Option.some_bind] at hm
  exact sortStep_perm st sys l m hm

/-- Witness for `pipeline_preserves_records` on a concrete pass: the
case-sensitively filtered snapshot is a sublist of the snapshot and the
sorted result is a permutation of it. -/
theorem pipeline_preserves_records_witness :
    List.Sublist [(5, (⟨1, "a", some 0⟩ : Process)), (5, ⟨2, "b", some 0⟩)]
        sysPidDup.processes ∧
    ∀ m, sorted_processes rmNone stCS sysPidDup = some m →
      m.Perm [(5, (⟨1, "a", some 0⟩ : Process)), (5, ⟨2, "b", some 0⟩)] :=
  pipeline_preserves_records rmNone stCS sysPidDup
    [(5, ⟨1, "a", some 0⟩), (5, ⟨2, "b", some 0⟩)] (by decide)

/-- C1: with label search enabled, every malformed search string — one
whose parse fails outright or leaves unconsumed input (unknown label,
unterminated quote, trailing input after the last clause, non-numeric pid
value) — makes `filtered_processes` return the empty list, never the full
snapshot.  The last conjunct instantiates the four malformed categories. -/
theorem label_parse_failure_fail_closed (rm : RegexModel) (st : ProcessListState)
    (sys : System) (hl : st.label_search = true) :
    (parse_input st.search = none → filtered_processes rm st sys = some []) ∧
    (∀ rest labels, parse_input st.search = some (rest, labels) → rest ≠ "" →
      filtered_processes rm st sys = some []) ∧
    (st.search = "foo:1" ∨ st.search = "pid:abc" ∨ st.search = "name:\"abc" ∨
      st.search = "pid:1 junk" →
      filtered_processes rm st sys = some []) := by
  have hkey : ∀ rest labels, parse_input st.search = some (rest, labels) → rest ≠ "" →
      filtered_processes rm st sys = some [] := by
    intro rest labels hp hr
    unfold filtered_processes
    rw [hl]
    simp only [Bool.not_true, Bool.and_false, Bool.false_eq_true, if_false, if_true]
    rw [hp]
    have : (if (rest, labels).1 ≠ "" then some []
        else applyLabels rm st sys (rest, labels).2 sys.processes)
        = (some [] : Option (List (Nat × Process))) := if_pos hr
    exact this
  refine ⟨?_, hkey, ?_⟩
  · intro hp
    unfold filtered_processes
    rw [hl]
    simp only [Bool.not_true, Bool.and_false, Bool.false_eq_true, if_false, if_true]
    rw [hp]
  · intro hs
    rcases hs with h | h | h | h
    · exact hkey "foo:1" [] (by rw [h]; decide) (by decide)
    · exact hkey "pid:abc" [] (by rw [h]; decide) (by decide)
    · exact hkey "name:\"abc" [] (by rw [h]; decide) (by decide)
    · exact hkey " junk" [Labels.Pid 1] (by rw [h]; decide) (by decide)

/-- Witness for `label_parse_failure_fail_closed`: the unknown-label query
`foo:1` filters the scenario snapshot to the empty list. -/
theorem label_parse_failure_fail_closed_witness :
    filtered_processes rmNone { stPlain with label_search := true, search := "foo:1" }
      sysEx = some [] :=
  (label_parse_failure_fail_closed rmNone
    { stPlain with label_search := true, search := "foo:1" } sysEx rfl).2.2 (Or.inl rfl)

/-- C2 (divergence witness): when the regex flag is on and the pattern does
not compile, the code panics — `Regex::new(...).unwrap()` — instead of
recovering with zero matches: standalone regex mode panics on the whole
search string, and in label mode a `name:` clause panics on its value; a
panic is `none` in this model. -/
theorem regex_compile_failure_panics (rm : RegexModel) (st : ProcessListState)
    (sys : System) (s : String) :
    (st.regex = true → st.label_search = false → rm.compile st.search = none →
      filtered_processes rm st sys = none) ∧
    (st.regex = true → rm.compile s = none →
      ∀ ps, applyClause rm st sys (Labels.Name s) ps = none) ∧
    (st.regex = true → st.label_search = true →
      parse_input st.search = some ("", [Labels.Name s]) → rm.compile s = none →
      filtered_processes rm st sys = none) := by
  refine ⟨?_, ?_, ?_⟩
  · intro hr hl hc
    unfold filtered_processes
    rw [hr, hl]
    simp only [Bool.not_false, Bool.and_true, if_true]
    rw [hc]
  · intro hr hc ps
    unfold applyClause
    rw [hr]
    simp only [if_true]
    rw [hc]
  · intro hr hl hp hc
    unfold filtered_processes
    rw [hl]
    simp only [Bool.not_true, Bool.and_false, Bool.false_eq_true, if_false, if_true]
    rw [hp]
    show (if ("" : String) ≠ "" then some []
        else applyLabels rm st sys [Labels.Name s] sys.processes) = none
    rw [if_neg (fun hne => hne rfl)]
    unfold applyLabels applyClause
    rw [hr]
    simp only [if_true]
    rw [hc]
    rfl

/-- Witness for `regex_compile_failure_panics`: a state searching for the
pattern `(` in regex mode panics under the failing regex engine, in both
standalone and label mode. -/
theorem regex_compile_failure_panics_witness :
    filtered_processes rmNone { stPlain with regex := true, search := "(" } sysEx
        = none ∧
    filtered_processes rmNone
        { stPlain with regex := true, label_search := true, search := "name:(" } sysEx
        = none :=
  ⟨(regex_compile_failure_panics rmNone { stPlain with regex := true, search := "(" }
      sysEx "(").1 rfl rfl rfl,
   (regex_compile_failure_panics rmNone
      { stPlain with regex := true, label_search := true, search := "name:(" }
      sysEx "(").2.2 rfl rfl (by decide) rfl⟩

/-- C3 (divergence witness): a record with an unresolvable owner is not
treated as a non-match, and owner sorting does not treat it as the empty
string; instead both the `owner:` clause evaluation and the `ByOwner` sort
unwrap the user lookup and panic (`none` in this model) whenever such a
record is among the evaluated processes. -/
theorem unresolvable_owner_panics (rm : RegexModel) (st : ProcessListState)
    (sys : System) (v : String) (ps : List (Nat × Process)) (p : Nat × Process) :
    (p ∈ ps → owner_name sys p.2 = none →
      applyClause rm st sys (Labels.Owner v) ps = none) ∧
    (st.sort = Columns.Owner → p ∈ ps → owner_name sys p.2 = none →
      sortStep st sys ps = none) := by
  constructor
  · intro hp hn
    exact filterUnwrap_none _ ps p hp (by rw [hn]; rfl)
  · intro hs hp hn
    have hres : allResolvable sys ps = false := by
      unfold allResolvable
      rw [List.all_eq_false]
      exact ⟨p, hp, by rw [hn]; simp⟩
    unfold sortStep
    rw [hs, hres]
    rfl

/-- Witness for `unresolvable_owner_panics`: in a snapshot where process 1
has no resolvable owner, the clause `owner:root` and the owner sort both
panic. -/
theorem unresolvable_owner_panics_witness :
    applyClause rmNone stPlain sysU (Labels.Owner "root") sysU.processes = none ∧
    sortStep stOwner sysU sysU.processes = none :=
  ⟨(unresolvable_owner_panics rmNone stPlain sysU "root" sysU.processes
      (1, ⟨1, "a", none⟩)).1 (by decide) rfl,
   (unresolvable_owner_panics rmNone stOwner sysU "root" sysU.processes
      (1, ⟨1, "a", none⟩)).2 rfl (by decide) rfl⟩

theorem clauseMatches_ignores_search (rm : RegexModel) (st : ProcessListState)
    (sys : System) (s' : String) (c : Labels) (p : Nat × Process) :
    clauseMatches rm { st with search := s' } sys c p = clauseMatches rm st sys c p := by
  cases c <;> rfl

theorem applyClause_eq_filter (rm : RegexModel) (st : ProcessListState) (sys : System)
    (c : Labels) (ps : List (Nat × Process))
    (hres : ∀ p ∈ ps, (owner_name sys p.2).isSome)
    (hc : ∀ s, c = Labels.Name s → st.regex = true → (rm.compile s).isSome) :
    applyClause rm st sys c ps
      = some (ps.filter (fun p => clauseMatches rm st sys c p)) := by
  cases c with
  | Pid n => rfl
  | Owner v =>
    apply filterUnwrap_eq_filter
    intro p hp
    obtain ⟨w, hw⟩ := Option.isSome_iff_exists.mp (hres p hp)
    simp [clauseMatches, hw]
  | Name v =>
    cases hr : st.regex with
    | false =>
      simp only [applyClause, clauseMatches, hr, Bool.false_eq_true, if_false]
    | true =>
      obtain ⟨re, hre⟩ := Option.isSome_iff_exists.mp (hc v rfl hr)
      simp only [applyClause, clauseMatches, hr, if_true, hre]

theorem applyLabels_eq_filter (rm : RegexModel) (st : ProcessListState) (sys : System) :
    ∀ (ls : List Labels) (ps : List (Nat × Process)),
      (∀ p ∈ ps, (owner_name sys p.2).isSome) →
      (∀ s, Labels.Name s ∈ ls → st.regex = true → (rm.compile s).isSome) →
      applyLabels rm st sys ls ps
        = some (ps.filter (fun p => ls.all (fun c => clauseMatches rm st sys c p))) := by
  intro ls
  induction ls with
  | nil =>
    intro ps _ _
    simp [applyLabels]
  | cons c cs ih =>
    intro ps hres hc
    have h1 : applyClause rm st sys c ps
        = some (ps.filter (fun p => clauseMatches rm st sys c p)) := by
      apply applyClause_eq_filter rm st sys c ps hres
      intro s hs hr
      refine hc s ?_ hr
      rw [hs] at *
      exact List.mem_cons_self _ _
    have h2 := ih (ps.filter (fun p => clauseMatches rm st sys c p))
      (fun p hp => hres p (List.mem_of_mem_filter hp))
      (fun s hs hr => hc s (List.mem_cons_of_mem c hs) hr)
    simp only [applyLabels, h1, Option.some_bind, h2, Option.some.injEq]
    rw [List.filter_filter]
    apply List.filter_congr
    intro p _
    simp only [List.all_cons]
    rw [Bool.and_comm]

theorem filtered_label_eval (rm : RegexModel) (st : ProcessListState) (sys : System)
    (labels : List Labels) (hl : st.label_search = true)
    (hp : parse_input st.search = some ("", labels))
    (hres : ∀ p ∈ sys.processes, (owner_name sys p.2).isSome)
    (hre : ∀ s, Labels.Name s ∈ labels → st.regex = true → (rm.compile s).isSome) :
    filtered_processes rm st sys
      = some (sys.processes.filter (fun p =>
          labels.all (fun c => clauseMatches rm st sys c p))) := by
  unfold filtered_processes
  rw [hl]
  simp only [Bool.not_true, Bool.and_false, Bool.false_eq_true, if_false, if_true]
  rw [hp]
  show (if ("" : String) ≠ "" then some []
      else applyLabels rm st sys labels sys.processes) = _
  rw [if_neg (fun hne => hne rfl)]
  exact applyLabels_eq_filter rm st sys labels sys.processes hres hre

/-- C4 (amended): for a well-formed label query, provided every snapshot
record's owner is resolvable and every `name:` clause value compiles when the
regex flag is set (so that no clause evaluation panics), the filtered result
is the snapshot filtered by the conjunction of the clauses; membership in it
is exactly membership in every clause's individual match set (intersection),
and the result does not change when the query string is replaced by one that
parses to any permutation of the same clauses. -/
theorem label_query_intersection (rm : RegexModel) (st : ProcessListState)
    (sys : System) (labels : List Labels)
    (hl : st.label_search = true)
    (hp : parse_input st.search = some ("", labels))
    (hres : ∀ p ∈ sys.processes, (owner_name sys p.2).isSome)
    (hre : ∀ s, Labels.Name s ∈ labels → st.regex = true → (rm.compile s).isSome) :
    filtered_processes rm st sys
      = some (sys.processes.filter (fun p =>
          labels.all (fun c => clauseMatches rm st sys c p))) ∧
    (∀ p, p ∈ sys.processes.filter (fun p =>
          labels.all (fun c => clauseMatches rm st sys c p))
        ↔ p ∈ sys.processes ∧ ∀ c ∈ labels, clauseMatches rm st sys c p = true) ∧
    (∀ s' labels', parse_input s' = some ("", labels') → labels'.Perm labels →
      filtered_processes rm { st with search := s' } sys
        = filtered_processes rm st sys) := by
  have hmain := filtered_label_eval rm st sys labels hl hp hres hre
  refine ⟨hmain, ?_, ?_⟩
  · intro p
    simp [List.mem_filter]
  · intro s' labels' hp' hperm
    have hre' : ∀ s, Labels.Name s ∈ labels'
        → ({ st with search := s' }).regex = true → (rm.compile s).isSome :=
      fun s hs hr => hre s (hperm.subset hs) hr
    have hmain' := filtered_label_eval rm { st with search := s' } sys labels' hl hp' hres hre'
    rw [hmain, hmain']
    congr 1
    apply List.filter_congr
    intro p _
    rw [show (fun c => clauseMatches rm { st with search := s' } sys c p)
        = (fun c => clauseMatches rm st sys c p) from
      funext (fun c => clauseMatches_ignores_search rm st sys s' c p)]
    exact perm_all_eq hperm _

/-- C4 counterexample: the claim as stated fails — clause order can change
the outcome.  On a snapshot whose only processes include one with an
unresolvable owner, the well-formed queries `pid:5 owner:x` and
`owner:x pid:5` parse to permutations of the same two clauses, yet the first
filters to the empty list while the second panics (no result at all),
because the `owner:` clause unwraps the user lookup only over the processes
surviving the preceding clauses. -/
theorem label_query_order_counterexample :
    parse_input "pid:5 owner:x" = some ("", [Labels.Pid 5, Labels.Owner "x"]) ∧
    parse_input "owner:x pid:5" = some ("", [Labels.Owner "x", Labels.Pid 5]) ∧
    List.Perm [Labels.Pid 5, Labels.Owner "x"] [Labels.Owner "x", Labels.Pid 5] ∧
    filtered_processes rmNone
      { stPlain with label_search := true, search := "pid:5 owner:x" } sysU
      = some [] ∧
    filtered_processes rmNone
      { stPlain with label_search := true, search := "owner:x pid:5" } sysU
      = none :=
  ⟨by decide, by decide, List.Perm.swap (Labels.Owner "x") (Labels.Pid 5) [],
   by decide, by decide⟩

/-- Witness for `label_query_intersection`: the single-clause query `pid:2`
on a fully-resolvable snapshot filters to the records with pid 2. -/
theorem label_query_intersection_witness :
    filtered_processes rmNone
        { stCS with label_search := true, search := "pid:2" } sysDup
      = some (sysDup.processes.filter (fun p => ([Labels.Pid 2]).all
          (fun c => clauseMatches rmNone
            { stCS with label_search := true, search := "pid:2" } sysDup c p))) :=
  (label_query_intersection rmNone
    { stCS with label_search := true, search := "pid:2" } sysDup [Labels.Pid 2]
    rfl (by decide) (by decide) (fun _ _ hr => absurd hr (by decide))).1

/-- C5: with both label mode and the regex flag enabled, only a `name:`
clause value goes through the regex engine; a `pid:` clause is plain numeric
equality and an `owner:` clause is the same literal (case-normalized)
substring evaluation as with the regex flag off — both are entirely
independent of the regex flag. -/
theorem regex_only_applies_to_name (rm : RegexModel) (st : ProcessListState)
    (sys : System) (n : Nat) (s : String) (ps : List (Nat × Process))
    (hr : st.regex = true) :
    applyClause rm st sys (Labels.Pid n) ps
      = some (ps.filter (fun p => p.2.pid == n)) ∧
    applyClause rm st sys (Labels.Pid n) ps
      = applyClause rm { st with regex := false } sys (Labels.Pid n) ps ∧
    applyClause rm st sys (Labels.Owner s) ps
      = applyClause rm { st with regex := false } sys (Labels.Owner s) ps ∧
    applyClause rm st sys (Labels.Name s) ps
      = (match rm.compile s with
         | none => none
         | some re => some (ps.filter (fun p => re p.2.name))) := by
  refine ⟨rfl, rfl, rfl, ?_⟩
  unfold applyClause
  rw [hr]
  rfl

/-- Witness for `regex_only_applies_to_name` at a concrete state, snapshot
and clauses. -/
theorem regex_only_applies_to_name_witness :
    applyClause rmSub { stCS with regex := true } sysEx (Labels.Pid 2002)
        sysEx.processes
      = some (sysEx.processes.filter (fun p => p.2.pid == 2002)) ∧
    applyClause rmSub { stCS with regex := true } sysEx (Labels.Pid 2002)
        sysEx.processes
      = applyClause rmSub { { stCS with regex := true } with regex := false } sysEx
          (Labels.Pid 2002) sysEx.processes ∧
    applyClause rmSub { stCS with regex := true } sysEx (Labels.Owner "fire")
        sysEx.processes
      = applyClause rmSub { { stCS with regex := true } with regex := false } sysEx
          (Labels.Owner "fire") sysEx.processes ∧
    applyClause rmSub { stCS with regex := true } sysEx (Labels.Name "fire")
        sysEx.processes
      = (match rmSub.compile "fire" with
         | none => none
         | some re => some (sysEx.processes.filter (fun p => re p.2.name))) :=
  regex_only_applies_to_name rmSub { stCS with regex := true } sysEx 2002 "fire"
    sysEx.processes rfl

/-- C6: the `sensitiveness` normalization is the identity when
`case_sensitive` is true and lower-casing when false; the plain substring
filter applies it to both the record name (haystack) and the search string
(needle); the `owner:` clause applies the very same normalization to both
the owner name and the clause value; and with `case_sensitive = false` the
per-record match outcome is invariant under replacing the needle and the
haystack by any strings with the same lower-casing. -/
theorem case_normalization (rm : RegexModel) (st : ProcessListState) (sys : System)
    (s hay ndl hay' ndl' v : String) (ps : List (Nat × Process)) :
    (st.case_sensitive = true → sensitiveness st s = s) ∧
    (st.case_sensitive = false → sensitiveness st s = s.toLower) ∧
    (st.regex = false → st.label_search = false →
      filtered_processes rm st sys
        = some (sys.processes.filter (fun p =>
            strContains (sensitiveness st p.2.name) (sensitiveness st st.search)))) ∧
    (applyClause rm st sys (Labels.Owner v) ps
      = filterUnwrap (fun p => (owner_name sys p.2).map (fun ow =>
          strContains (sensitiveness st ow) (sensitiveness st v))) ps) ∧
    (st.case_sensitive = false → hay'.toLower = hay.toLower →
      ndl'.toLower = ndl.toLower →
      strContains (sensitiveness st hay') (sensitiveness st ndl')
        = strContains (sensitiveness st hay) (sensitiveness st ndl)) := by
  refine ⟨?_, ?_, ?_, rfl, ?_⟩
  · intro hcs
    simp [sensitiveness, hcs]
  · intro hcs
    simp [sensitiveness, hcs]
  · intro hr hl
    unfold filtered_processes
    rw [hr, hl]
    rfl
  · intro hcs hh hn
    simp only [sensitiveness, hcs, Bool.false_eq_true, if_false, hh, hn]

/-- Witness for `case_normalization` at the default (case-insensitive)
state: the normalization lower-cases, the plain filter shape holds, and the
match is invariant under a lower-casing-preserving replacement. -/
theorem case_normalization_witness :
    sensitiveness stPlain "Find" = "Find".toLower ∧
    filtered_processes rmNone stPlain sysEx
      = some (sysEx.processes.filter (fun p =>
          strContains (sensitiveness stPlain p.2.name)
            (sensitiveness stPlain stPlain.search))) ∧
    strContains (sensitiveness stPlain "Find") (sensitiveness stPlain "find")
      = strContains (sensitiveness stPlain "Find") (sensitiveness stPlain "find") :=
  ⟨(case_normalization rmNone stPlain sysEx "Find" "Find" "find" "Find" "find" "" []).2.1 rfl,
   (case_normalization rmNone stPlain sysEx "Find" "Find" "find" "Find" "find" "" []).2.2.1
     rfl rfl,
   (case_normalization rmNone stPlain sysEx "Find" "Find" "find" "Find" "find" "" []).2.2.2.2
     rfl rfl rfl⟩
